import Mathlib

/-!
Shallow embedding of the collection lifecycle and incremental indexing engine
of `src/vectorstore.py` and `src/utils/checksums.py`.

Modelling conventions:
* A JSON metadata value is `MetaVal` (string, integer or null); the flat
  `.meta.json` record is a `Dict`, an association list with first-match lookup
  and overwrite-on-insert, matching Python `dict.get` and `{**a, k: v}`.
* File contents are represented by their SHA-256 digest directly: `file_sha256`
  is deterministic in content, so a directory is the association of each
  regular file to its digest, which is exactly what `compute_dir_checksums`
  returns.  A missing directory is `none`: `Path.rglob` on a missing directory
  yields no entries, so the checksum map comes back empty.
* A `Chunk` is a langchain `Document`: `src` is the source path relative to the
  collection's document directory (`doc.metadata["source"]` after
  `Path.relative_to(directory)`; `none` models an absent or empty source field),
  `fname` is `doc.metadata["file_name"]`, `cid` identifies the chunk, and
  `embedFails` models the embedding backend raising on this chunk.
* The Chroma store of one collection is `CollState`: whether the persist
  directory exists, the raw `.meta.json` file (absent, parseable, or corrupt),
  and the list of indexed chunks.
* Timestamps are integer seconds; `parseTs` models `datetime.fromisoformat`:
  a model timestamp is rendered in decimal, and an unparseable string yields
  `none` (the `ValueError` branch).  `timedelta.days` floors, matching
  `Int.fdiv _ 86400`.
-/

inductive MetaVal where
  | str (s : String)
  | int (n : Int)
  | null
deriving DecidableEq, Repr

/-- Association-list dictionary backing the flat JSON metadata record. -/
abbrev Dict : Type := List (String × MetaVal)

/-- `d.get k` of a Python dict: first matching key wins. -/
def dget : Dict → String → Option MetaVal
  | [], _ => none
  | p :: rest, k => if p.1 = k then some p.2 else dget rest k

/-- `{**d, k: v}`: insert-with-overwrite. -/
def dinsert (d : Dict) (k : String) (v : MetaVal) : Dict :=
  (k, v) :: List.filter (fun p => p.1 ≠ k) d

/-- `bool(v)` on a JSON value, as Python truthiness. -/
def mvTruthy : MetaVal → Bool
  | MetaVal.str s => s ≠ ""
  | MetaVal.int n => n ≠ 0
  | MetaVal.null => false

/-- `v + 1` when `v` is an integer; `none` models the `TypeError` raised
when the stored version is not a number. -/
def mvAddOneInt : MetaVal → Option Int
  | MetaVal.int n => some (n + 1)
  | _ => none

def mvAddOne (v : MetaVal) : Option MetaVal :=
  (mvAddOneInt v).map MetaVal.int

/-- A langchain `Document` as consumed by the vector store. -/
structure Chunk where
  src : Option String
  fname : Option String
  cid : Nat
  embedFails : Bool
deriving DecidableEq, Repr

/-- The raw `.meta.json` file: parseable JSON or corrupt bytes. -/
inductive MetaFile where
  | ok (d : Dict)
  | corrupt
deriving DecidableEq, Repr

/-- Persisted state of one collection under `<root>/<tenant>/<name>/`. -/
structure CollState where
  dirExists : Bool
  metaFile : Option MetaFile
  index : List Chunk
deriving DecidableEq, Repr

/-- `_load_meta`: absent or unparseable records give the empty dict,
never an exception (`json.JSONDecodeError` is caught). -/
def _load_meta : Option MetaFile → Dict
  | some (MetaFile.ok d) => d
  | some MetaFile.corrupt => []
  | none => []

/-- `compute_dir_checksums`: relative path to digest for every regular file;
`rglob` on a missing directory yields nothing, so the map is empty. -/
def compute_dir_checksums : Option (List (String × String)) → List (String × String)
  | none => []
  | some fs => fs

/-- The checksum map as a metadata dict fragment (digests are strings). -/
def currentMetaDict (fs : List (String × String)) : Dict :=
  fs.map (fun pc => (pc.1, MetaVal.str pc.2))

/-- `changed_files`: paths whose current digest differs from the one stored in
the prior metadata record (absent counts as different). -/
def changedFiles (previousMeta : Dict) (fs : List (String × String)) : List String :=
  (fs.filter (fun pc => dget previousMeta pc.1 ≠ some (MetaVal.str pc.2))).map Prod.fst

/-- The metadata literal written by `create_collection`. -/
def createMetaDict (collectionName tenant : String) (retention : Int) (owner : MetaVal)
    (version : Int) (now : String) : Dict :=
  dinsert (dinsert (dinsert (dinsert (dinsert (dinsert (dinsert []
    "collection" (MetaVal.str collectionName)) "tenant" (MetaVal.str tenant))
    "retention_days" (MetaVal.int retention)) "owner" owner)
    "version" (MetaVal.int version)) "created_at" (MetaVal.str now))
    "updated_at" (MetaVal.str now)

/-- Result of an indexing operation: the collection state afterwards, how many
chunks were embedded, and whether an exception propagated to the caller. -/
structure BuildOut where
  state : CollState
  embeds : Nat
  err : Bool
deriving DecidableEq, Repr

/-- `create_collection`: removes any existing subtree, rebuilds the index from
the supplied documents (`Chroma.from_documents`), then writes fresh metadata.
If embedding fails the exception propagates before `_save_meta` runs, leaving
the directory recreated but without a metadata record. -/
def create_collection (collectionName tenant : String) (documents : List Chunk)
    (retention : Int) (owner : MetaVal) (version : Int) (now : String)
    (_s : CollState) : BuildOut :=
  if documents.any (·.embedFails) then
    { state := { dirExists := true, metaFile := none, index := [] },
      embeds := 0, err := true }
  else
    { state := { dirExists := true,
                 metaFile := some (MetaFile.ok
                   (createMetaDict collectionName tenant retention owner version now)),
                 index := documents },
      embeds := documents.length, err := false }

/-- `load_collection`: `none` iff the persist directory does not exist;
otherwise opens the existing index. -/
def load_collection (s : CollState) : Option (List Chunk) :=
  if s.dirExists then some s.index else none

/-- The `meta_to_save` dict literal of `build_or_update_collection_from_dir`:
current checksums spread first, then the reserved fields overwrite. -/
def reservedSave (cur : Dict) (collectionName tenant : String) (retention : Int)
    (owner : MetaVal) (version : MetaVal) (now : String) (created : MetaVal) : Dict :=
  dinsert (dinsert (dinsert (dinsert (dinsert (dinsert (dinsert cur
    "collection" (MetaVal.str collectionName)) "tenant" (MetaVal.str tenant))
    "retention_days" (MetaVal.int retention)) "owner" owner)
    "version" version) "updated_at" (MetaVal.str now)) "created_at" created

/-- The reserved metadata field names of the persisted record. -/
def reservedKeys : List String :=
  ["collection", "tenant", "retention_days", "owner", "version",
   "updated_at", "created_at"]

/-- The index phase of `build_or_update_collection_from_dir` (everything before
`meta_to_save`): full rebuild when `incremental` is false or no persist
directory exists, otherwise load and append the chunks of changed files. -/
def indexPhase (collectionName tenant : String) (s : CollState) (previousMeta : Dict)
    (changed : List String) (documents : List Chunk)
    (incremental : Bool) (retention : Int) (owner : MetaVal) (now : String) : BuildOut :=
  let previousVersion := (dget previousMeta "version").getD (MetaVal.int 1)
  if !incremental || !s.dirExists then
    match (if previousMeta.isEmpty then some 1 else mvAddOneInt previousVersion) with
    | none => { state := { s with dirExists := true }, embeds := 0, err := true }
    | some v =>
        create_collection collectionName tenant documents retention owner v now
          { s with dirExists := true }
  else
    match load_collection s with
    | none =>
        match mvAddOneInt previousVersion with
        | none => { state := s, embeds := 0, err := true }
        | some v => create_collection collectionName tenant documents retention owner v now s
    | some _ =>
        if !changed.isEmpty then
          let docsToAdd := documents.filter (fun d =>
            match d.src with
            | some p => decide (p ∈ changed)
            | none => false)
          if !docsToAdd.isEmpty then
            if docsToAdd.any (·.embedFails) then
              { state := s, embeds := 0, err := true }
            else
              { state := { s with index := s.index ++ docsToAdd },
                embeds := docsToAdd.length, err := false }
          else { state := s, embeds := 0, err := false }
        else { state := s, embeds := 0, err := false }

/-- `build_or_update_collection_from_dir`: prior metadata is loaded only when
`incremental` is true; the metadata record is written only after the index
phase returned without raising. -/
def build_or_update_collection_from_dir (collectionName tenant : String)
    (s : CollState) (dir : Option (List (String × String))) (documents : List Chunk)
    (incremental : Bool) (retention : Int) (owner : MetaVal) (now : String) : BuildOut :=
  let previousMeta := if incremental then _load_meta s.metaFile else []
  let currentFiles := compute_dir_checksums dir
  let previousVersion := (dget previousMeta "version").getD (MetaVal.int 1)
  let changed := changedFiles previousMeta currentFiles
  let p1 := indexPhase collectionName tenant s previousMeta changed documents
    incremental retention owner now
  if p1.err then p1
  else
    match (if !changed.isEmpty || previousMeta.isEmpty then mvAddOne previousVersion
           else some previousVersion) with
    | none => { p1 with err := true }
    | some vv =>
        let created := (dget previousMeta "created_at").getD (MetaVal.str now)
        let saved := reservedSave (currentMetaDict currentFiles) collectionName tenant
          retention owner vv now created
        { p1 with state := { p1.state with metaFile := some (MetaFile.ok saved) } }

/-- The version field of a collection's persisted metadata. -/
def metaVersion (s : CollState) : Option MetaVal :=
  dget (_load_meta s.metaFile) "version"

/-- `get_collection_stats` result record. -/
structure CollStats where
  name : String
  chunks : Nat
  files : List String
  file_count : Nat
deriving DecidableEq, Repr

/-- `get_collection_stats`: `none` (the empty dict) when the collection does
not exist, otherwise chunk count and distinct file names. -/
def get_collection_stats (collectionName : String) (s : CollState) : Option CollStats :=
  match load_collection s with
  | none => none
  | some idx =>
      let files := (idx.filterMap (·.fname)).dedup
      some ⟨collectionName, idx.length, files, files.length⟩

/-!  The storage root: `CHROMA_PERSIST_DIR/<tenant>/<collection>/`.
For the sweep and delete operations only the metadata file and the
deletability of each collection subtree matter. -/

/-- `DEFAULT_RETENTION_DAYS` is imported from `src.config` but not defined
there; modelled from the spec (retention window in days, default 30).  No
claim depends on its value: the scenarios of interest store
`retention_days` explicitly in the metadata record. -/
def DEFAULT_RETENTION_DAYS : Int := 30

/-- One collection directory as seen by the purge sweep and delete:
`rmFails` models `shutil.rmtree` raising an I/O error on this subtree. -/
structure PColl where
  name : String
  metaFile : Option MetaFile
  rmFails : Bool
deriving DecidableEq, Repr

/-- One tenant directory under the storage root. -/
structure PTenant where
  name : String
  colls : List PColl
deriving DecidableEq, Repr

/-- Decimal digit value of a character. -/
def digitVal (ch : Char) : Option Nat :=
  if ch = '0' then some 0 else if ch = '1' then some 1 else if ch = '2' then some 2
  else if ch = '3' then some 3 else if ch = '4' then some 4 else if ch = '5' then some 5
  else if ch = '6' then some 6 else if ch = '7' then some 7 else if ch = '8' then some 8
  else if ch = '9' then some 9 else none

/-- Accumulate decimal digits; any non-digit character fails. -/
def digitsToNat : List Char → Nat → Option Nat
  | [], acc => some acc
  | ch :: rest, acc =>
      match digitVal ch with
      | none => none
      | some d => digitsToNat rest (acc * 10 + d)

/-- `datetime.fromisoformat` on the stored `created_at` string: a model
timestamp is its integer seconds rendered in decimal (optionally negative);
any other string raises `ValueError`, modelled as `none`. -/
def parseTs (s : String) : Option Int :=
  match s.data with
  | [] => none
  | '-' :: rest =>
      match rest with
      | [] => none
      | _ => (digitsToNat rest 0).map (fun n => -(n : Int))
  | l => (digitsToNat l 0).map (fun n => (n : Int))

/-- The body of the purge loop for one collection directory: load metadata,
skip unless a truthy `created_at` parses and the age in whole days (the
`timedelta.days` floor) exceeds `retention_days`; any `TypeError` from a
non-string `created_at` or a non-integer `retention_days` is absorbed by the
`except Exception: continue`. -/
def shouldDelete (now : Int) (c : PColl) : Bool :=
  let meta := _load_meta c.metaFile
  let retention := (dget meta "retention_days").getD (MetaVal.int DEFAULT_RETENTION_DAYS)
  match dget meta "created_at" with
  | none => false
  | some v =>
      if mvTruthy v then
        match v with
        | MetaVal.str t =>
            match parseTs t with
            | none => false
            | some createdTs =>
                match retention with
                | MetaVal.int r => decide ((now - createdTs).fdiv 86400 > r)
                | _ => false
        | _ => false
      else false

/-- Effect of the purge loop on one collection directory: kept as-is when not
expired, kept (and unlisted) when `rmtree` raises, otherwise removed and its
`tenant/name` identity recorded. -/
def perCell (now : Int) (tname : String) (c : PColl) : List PColl × List String :=
  if shouldDelete now c then
    if c.rmFails then ([c], [])
    else ([], [tname ++ "/" ++ c.name])
  else ([c], [])

/-- The purge loop over the collection directories of one tenant, in
iteration order. -/
def sweepCells (now : Int) (tname : String) : List PColl → List PColl × List String
  | [] => ([], [])
  | c :: rest =>
      let h := perCell now tname c
      let r := sweepCells now tname rest
      (h.1 ++ r.1, h.2 ++ r.2)

/-- `purge_expired_collections(now)` over the whole storage root: tenant
directories themselves are never removed; the deleted identities are
returned in sweep order. -/
def purge_expired_collections (now : Int) : List PTenant → List PTenant × List String
  | [] => ([], [])
  | t :: rest =>
      let sc := sweepCells now t.name t.colls
      let r := purge_expired_collections now rest
      (⟨t.name, sc.1⟩ :: r.1, sc.2 ++ r.2)

/-- Whether `<root>/<tenantName>/<collName>` exists. -/
def collExists (store : List PTenant) (tenantName collName : String) : Bool :=
  store.any (fun t => t.name = tenantName && t.colls.any (fun c => c.name = collName))

/-- `delete_collection(collection_name)`: the persist directory is
`get_collection_path(collection_name)` with the tenant argument left at its
default `"public"`, so the subtree removed always lives under the `public`
tenant, whatever tenant the caller acted for. -/
def delete_collection (store : List PTenant) (collectionName : String) :
    List PTenant × Bool :=
  if collExists store "public" collectionName then
    (store.map (fun t =>
      if t.name = "public" then
        { t with colls := t.colls.filter (fun c => c.name ≠ collectionName) }
      else t), true)
  else (store, false)

/-- The `DELETE /collections/{name}` route: the authenticated tenant is
resolved by `get_auth_tenant` but not forwarded to `delete_collection`. -/
def delete_collection_api (store : List PTenant) (name : String) (_tenant : String) :
    List PTenant × Bool :=
  delete_collection store name

/-! ## Dictionary lemmas -/

theorem dget_dinsert_self (d : Dict) (k : String) (v : MetaVal) :
    dget (dinsert d k v) k = some v := by
  simp [dinsert, dget]

theorem dget_cons (p : String × MetaVal) (d : Dict) (k : String) :
    dget (p :: d) k = if p.1 = k then some p.2 else dget d k := rfl

theorem dget_filter_ne (d : Dict) (k k2 : String) (h : k2 ≠ k) :
    dget (List.filter (fun p => p.1 ≠ k) d) k2 = dget d k2 := by
  induction d with
  | nil => rfl
  | cons p rest ih =>
      rw [List.filter_cons]
      by_cases hp : p.1 = k
      · rw [if_neg (by simp [hp]), ih, dget_cons,
          if_neg (fun hc => h (hc.symm.trans hp))]
      · rw [if_pos (by simp [hp]), dget_cons, dget_cons, ih]

theorem dget_dinsert_ne (d : Dict) (k k2 : String) (v : MetaVal) (h : k2 ≠ k) :
    dget (dinsert d k v) k2 = dget d k2 := by
  simp only [dinsert, dget]
  rw [if_neg (by simpa using h.symm)]
  exact dget_filter_ne d k k2 h

theorem dget_reservedSave_not_reserved (cur : Dict) (cn tn : String) (r : Int)
    (ow vv : MetaVal) (now : String) (cr : MetaVal) (p : String)
    (h : p ∉ reservedKeys) :
    dget (reservedSave cur cn tn r ow vv now cr) p = dget cur p := by
  simp only [reservedKeys, List.mem_cons, List.mem_singleton, not_or] at h
  obtain ⟨h1, h2, h3, h4, h5, h6, h7⟩ := h
  simp at h7
  unfold reservedSave
  rw [dget_dinsert_ne _ _ _ _ h7, dget_dinsert_ne _ _ _ _ h6,
    dget_dinsert_ne _ _ _ _ h5, dget_dinsert_ne _ _ _ _ h4,
    dget_dinsert_ne _ _ _ _ h3, dget_dinsert_ne _ _ _ _ h2,
    dget_dinsert_ne _ _ _ _ h1]

theorem dget_reservedSave_version (cur : Dict) (cn tn : String) (r : Int)
    (ow vv : MetaVal) (now : String) (cr : MetaVal) :
    dget (reservedSave cur cn tn r ow vv now cr) "version" = some vv := by
  unfold reservedSave
  rw [dget_dinsert_ne _ _ _ _ (by decide), dget_dinsert_ne _ _ _ _ (by decide),
    dget_dinsert_self]

theorem dget_reservedSave_created (cur : Dict) (cn tn : String) (r : Int)
    (ow vv : MetaVal) (now : String) (cr : MetaVal) :
    dget (reservedSave cur cn tn r ow vv now cr) "created_at" = some cr := by
  unfold reservedSave
  rw [dget_dinsert_self]

theorem dget_currentMetaDict_not_mem (fs : List (String × String)) (p : String)
    (h : p ∉ fs.map Prod.fst) :
    dget (currentMetaDict fs) p = none := by
  induction fs with
  | nil => rfl
  | cons q rest ih =>
      simp only [List.map_cons, List.mem_cons, not_or] at h
      simp only [currentMetaDict, List.map_cons, dget_cons]
      rw [if_neg (by simpa using (Ne.symm h.1))]
      exact ih h.2

theorem dget_currentMetaDict_mem (fs : List (String × String)) (p c : String)
    (hnd : (fs.map Prod.fst).Nodup) (hm : (p, c) ∈ fs) :
    dget (currentMetaDict fs) p = some (MetaVal.str c) := by
  induction fs with
  | nil => cases hm
  | cons q rest ih =>
      simp only [List.map_cons, List.nodup_cons] at hnd
      rcases List.mem_cons.mp hm with hq | hrest
      · subst hq
        simp [currentMetaDict, dget_cons]
      · have hpq : q.1 ≠ p := by
          intro hc
          exact hnd.1 (hc ▸ (List.mem_map.mpr ⟨(p, c), hrest, rfl⟩))
        simp only [currentMetaDict, List.map_cons, dget_cons]
        rw [if_neg hpq]
        exact ih hnd.2 hrest

/-! ## C1 — forced full rebuild -/

/-- Prior state for the C1 counterexample: an existing collection whose
persisted metadata is at version 2. -/
def c1PriorState : CollState :=
  { dirExists := true,
    metaFile := some (MetaFile.ok
      [("version", MetaVal.int 2), ("a.txt", MetaVal.str "h1"),
       ("created_at", MetaVal.str "100")]),
    index := [⟨some "a.txt", some "a.txt", 0, false⟩] }

/-- C1 counterexample: on an existing collection with prior metadata at
version 2, `build_or_update_collection_from_dir` with `incremental = False`
persists version 2, not 2 + 1 = 3 — the claim fails because prior metadata
is not loaded at all when `incremental` is false. -/
theorem c1_version_counterexample :
    metaVersion (build_or_update_collection_from_dir "c" "public" c1PriorState
      (some [("a.txt", "h9")]) [⟨some "a.txt", some "a.txt", 1, false⟩]
      false 30 MetaVal.null "200").state = some (MetaVal.int 2) ∧
    some (MetaVal.int 2) ≠ some (MetaVal.int (2 + 1)) := by
  constructor
  · rfl
  · decide

/-- C1 (amended): calling `build_or_update_collection_from_dir` with
`incremental = False` discards all previously indexed chunks, the resulting
index reflects only the newly supplied chunk set, and the persisted version
equals 2 regardless of the prior version (prior metadata is never consulted
on this path), provided no supplied chunk makes the embedding backend fail. -/
theorem c1_nonincremental_full_rebuild (cn tn : String) (s : CollState)
    (dir : Option (List (String × String))) (documents : List Chunk)
    (retention : Int) (owner : MetaVal) (now : String)
    (hemb : documents.any (·.embedFails) = false) :
    (build_or_update_collection_from_dir cn tn s dir documents false retention
      owner now).err = false ∧
    (build_or_update_collection_from_dir cn tn s dir documents false retention
      owner now).state.index = documents ∧
    metaVersion (build_or_update_collection_from_dir cn tn s dir documents false
      retention owner now).state = some (MetaVal.int 2) := by
  simp [build_or_update_collection_from_dir, indexPhase, create_collection, hemb,
    mvAddOne, mvAddOneInt, dget, metaVersion, _load_meta, dget_reservedSave_version]

/-- Witness for `c1_nonincremental_full_rebuild` at a concrete input. -/
theorem c1_nonincremental_full_rebuild_witness :
    ([⟨some "a.txt", some "a.txt", 1, false⟩] : List Chunk).any (·.embedFails) = false ∧
    (build_or_update_collection_from_dir "c" "public" c1PriorState
      (some [("a.txt", "h9")]) [⟨some "a.txt", some "a.txt", 1, false⟩]
      false 30 MetaVal.null "200").err = false ∧
    (build_or_update_collection_from_dir "c" "public" c1PriorState
      (some [("a.txt", "h9")]) [⟨some "a.txt", some "a.txt", 1, false⟩]
      false 30 MetaVal.null "200").state.index =
      [⟨some "a.txt", some "a.txt", 1, false⟩] ∧
    metaVersion (build_or_update_collection_from_dir "c" "public" c1PriorState
      (some [("a.txt", "h9")]) [⟨some "a.txt", some "a.txt", 1, false⟩]
      false 30 MetaVal.null "200").state = some (MetaVal.int 2) :=
  ⟨by decide,
   c1_nonincremental_full_rebuild "c" "public" c1PriorState (some [("a.txt", "h9")])
     [⟨some "a.txt", some "a.txt", 1, false⟩] 30 MetaVal.null "200" (by decide)⟩

/-! ## C2 — incremental add of a new file -/

/-- C2: for a collection previously built over files `A`, `B` at version 1
(stored fingerprints matching the current digests of `A` and `B`, no stored
fingerprint for `C`, and none of the three paths colliding with a reserved
metadata key), an incremental `build_or_update_collection_from_dir` over
`{A, B, C}` appends exactly the supplied chunks whose source is `C` (no chunk
of `A` or `B` is re-embedded), persists version 2, and persists a fingerprint
mapping covering exactly `{A, B, C}`. -/
theorem c2_incremental_add (cn tn A B C cA cB cC : String) (m : Dict) (s : CollState)
    (documents : List Chunk) (retention : Int) (owner : MetaVal) (now : String)
    (out : BuildOut)
    (hs : s.dirExists = true) (hm : s.metaFile = some (MetaFile.ok m))
    (hAr : A ∉ reservedKeys) (hBr : B ∉ reservedKeys) (hCr : C ∉ reservedKeys)
    (hAB : A ≠ B) (hAC : A ≠ C) (hBC : B ≠ C)
    (hvm : dget m "version" = some (MetaVal.int 1))
    (hA : dget m A = some (MetaVal.str cA))
    (hB : dget m B = some (MetaVal.str cB))
    (hC : dget m C = none)
    (hemb : (documents.filter (fun d => d.src = some C)).any (·.embedFails) = false)
    (hout : out = build_or_update_collection_from_dir cn tn s
      (some [(A, cA), (B, cB), (C, cC)]) documents true retention owner now) :
    out.err = false ∧
    out.state.index = s.index ++ documents.filter (fun d => d.src = some C) ∧
    out.embeds = (documents.filter (fun d => d.src = some C)).length ∧
    metaVersion out.state = some (MetaVal.int 2) ∧
    dget (_load_meta out.state.metaFile) A = some (MetaVal.str cA) ∧
    dget (_load_meta out.state.metaFile) B = some (MetaVal.str cB) ∧
    dget (_load_meta out.state.metaFile) C = some (MetaVal.str cC) ∧
    (∀ p, p ∉ reservedKeys → p ≠ A → p ≠ B → p ≠ C →
      dget (_load_meta out.state.metaFile) p = none) := by
  have hchanged : changedFiles m [(A, cA), (B, cB), (C, cC)] = [C] := by
    simp [changedFiles, hA, hB, hC]
  have hfilter : documents.filter (fun d => match d.src with
      | some p => decide (p ∈ ([C] : List String))
      | none => false) = documents.filter (fun d => d.src = some C) := by
    apply List.filter_congr
    intro d _
    cases hsrc : d.src <;> simp [hsrc]
  have hres : build_or_update_collection_from_dir cn tn s
      (some [(A, cA), (B, cB), (C, cC)]) documents true retention owner now =
      { state :=
          { dirExists := true,
            metaFile := some (MetaFile.ok (reservedSave
              (currentMetaDict [(A, cA), (B, cB), (C, cC)]) cn tn retention owner
              (MetaVal.int 2) now ((dget m "created_at").getD (MetaVal.str now)))),
            index := s.index ++ documents.filter (fun d => d.src = some C) },
        embeds := (documents.filter (fun d => d.src = some C)).length,
        err := false } := by
    simp only [build_or_update_collection_from_dir, indexPhase, compute_dir_checksums,
      _load_meta, hm, hchanged, if_true]
    rw [hs, hfilter]
    by_cases hde : (documents.filter (fun d => d.src = some C)).isEmpty = true
    · have hnil : documents.filter (fun d => d.src = some C) = [] := by
        simpa using hde
      simp [load_collection, hs, hnil, hvm, mvAddOne, mvAddOneInt]
    · simp [load_collection, hs, hde, hemb, hvm, mvAddOne, mvAddOneInt]
  subst hout
  rw [hres]
  refine ⟨rfl, rfl, rfl, ?_, ?_, ?_, ?_, ?_⟩
  · simp [metaVersion, _load_meta, dget_reservedSave_version]
  · show dget (reservedSave _ _ _ _ _ _ _ _) A = _
    rw [dget_reservedSave_not_reserved _ _ _ _ _ _ _ _ _ hAr]
    simp [currentMetaDict, dget]
  · show dget (reservedSave _ _ _ _ _ _ _ _) B = _
    rw [dget_reservedSave_not_reserved _ _ _ _ _ _ _ _ _ hBr]
    simp [currentMetaDict, dget, hAB]
  · show dget (reservedSave _ _ _ _ _ _ _ _) C = _
    rw [dget_reservedSave_not_reserved _ _ _ _ _ _ _ _ _ hCr]
    simp [currentMetaDict, dget, hAC, hBC]
  · intro p hp hpA hpB hpC
    show dget (reservedSave _ _ _ _ _ _ _ _) p = none
    rw [dget_reservedSave_not_reserved _ _ _ _ _ _ _ _ _ hp]
    exact dget_currentMetaDict_not_mem _ _ (by simp [hpA, hpB, hpC])

/-- Prior metadata for the C2 witness. -/
def c2Meta : Dict :=
  [("version", MetaVal.int 1), ("a.txt", MetaVal.str "hA"),
   ("b.txt", MetaVal.str "hB"), ("created_at", MetaVal.str "50")]

/-- Prior state for the C2 witness. -/
def c2State : CollState :=
  { dirExists := true, metaFile := some (MetaFile.ok c2Meta),
    index := [⟨some "a.txt", some "a.txt", 0, false⟩,
              ⟨some "b.txt", some "b.txt", 1, false⟩] }

/-- Supplied chunk set for the C2 witness. -/
def c2Docs : List Chunk :=
  [⟨some "a.txt", some "a.txt", 10, false⟩,
   ⟨some "b.txt", some "b.txt", 11, false⟩,
   ⟨some "c.txt", some "c.txt", 12, false⟩]

/-- Witness for `c2_incremental_add` at a concrete input. -/
theorem c2_incremental_add_witness :
    (build_or_update_collection_from_dir "c" "public" c2State
      (some [("a.txt", "hA"), ("b.txt", "hB"), ("c.txt", "hC")]) c2Docs true 30
      MetaVal.null "200").err = false ∧
    (build_or_update_collection_from_dir "c" "public" c2State
      (some [("a.txt", "hA"), ("b.txt", "hB"), ("c.txt", "hC")]) c2Docs true 30
      MetaVal.null "200").state.index =
      c2State.index ++ c2Docs.filter (fun d => d.src = some "c.txt") ∧
    (build_or_update_collection_from_dir "c" "public" c2State
      (some [("a.txt", "hA"), ("b.txt", "hB"), ("c.txt", "hC")]) c2Docs true 30
      MetaVal.null "200").embeds =
      (c2Docs.filter (fun d => d.src = some "c.txt")).length ∧
    metaVersion (build_or_update_collection_from_dir "c" "public" c2State
      (some [("a.txt", "hA"), ("b.txt", "hB"), ("c.txt", "hC")]) c2Docs true 30
      MetaVal.null "200").state = some (MetaVal.int 2) ∧
    dget (_load_meta (build_or_update_collection_from_dir "c" "public" c2State
      (some [("a.txt", "hA"), ("b.txt", "hB"), ("c.txt", "hC")]) c2Docs true 30
      MetaVal.null "200").state.metaFile) "a.txt" = some (MetaVal.str "hA") ∧
    dget (_load_meta (build_or_update_collection_from_dir "c" "public" c2State
      (some [("a.txt", "hA"), ("b.txt", "hB"), ("c.txt", "hC")]) c2Docs true 30
      MetaVal.null "200").state.metaFile) "b.txt" = some (MetaVal.str "hB") ∧
    dget (_load_meta (build_or_update_collection_from_dir "c" "public" c2State
      (some [("a.txt", "hA"), ("b.txt", "hB"), ("c.txt", "hC")]) c2Docs true 30
      MetaVal.null "200").state.metaFile) "c.txt" = some (MetaVal.str "hC") := by
  have h := c2_incremental_add "c" "public" "a.txt" "b.txt" "c.txt" "hA" "hB" "hC"
    c2Meta c2State c2Docs 30 MetaVal.null "200" _ rfl rfl (by decide) (by decide)
    (by decide) (by decide) (by decide) (by decide) (by decide) (by decide)
    (by decide) (by decide) (by decide) rfl
  exact ⟨h.1, h.2.1, h.2.2.1, h.2.2.2.1, h.2.2.2.2.1, h.2.2.2.2.2.1,
    h.2.2.2.2.2.2.1⟩

/-! ## Structural lemmas about the build pipeline -/

theorem indexPhase_dirExists (cn tn : String) (s : CollState) (pm : Dict)
    (ch : List String) (docs : List Chunk) (inc : Bool) (ret : Int) (ow : MetaVal)
    (now : String) :
    (indexPhase cn tn s pm ch docs inc ret ow now).state.dirExists = true := by
  by_cases hc : (!inc || !s.dirExists) = true
  · simp only [indexPhase, hc, if_true]
    cases hov : (if pm.isEmpty = true then some 1
        else mvAddOneInt ((dget pm "version").getD (MetaVal.int 1))) with
    | none => simp [hov]
    | some v => simp only [hov]; simp [create_collection]; split <;> rfl
  · obtain ⟨hinc, hdir⟩ : inc = true ∧ s.dirExists = true := by simpa using hc
    simp only [indexPhase, hinc, hdir, load_collection, Bool.not_true, Bool.or_self,
      if_false, if_true, create_collection]
    repeat' split
    all_goals simp [hdir]

theorem build_success_shape (cn tn : String) (s : CollState)
    (dir : Option (List (String × String))) (docs : List Chunk) (inc : Bool)
    (ret : Int) (ow : MetaVal) (now : String)
    (h : (build_or_update_collection_from_dir cn tn s dir docs inc ret ow now).err = false) :
    (build_or_update_collection_from_dir cn tn s dir docs inc ret ow now).state.dirExists = true ∧
    ∃ vv cr, (build_or_update_collection_from_dir cn tn s dir docs inc ret ow now).state.metaFile =
      some (MetaFile.ok (reservedSave (currentMetaDict (compute_dir_checksums dir))
        cn tn ret ow vv now cr)) := by
  simp only [build_or_update_collection_from_dir] at h ⊢
  set pm := (if inc = true then _load_meta s.metaFile else []) with hpm
  set ch := changedFiles pm (compute_dir_checksums dir) with hch
  set p1 := indexPhase cn tn s pm ch docs inc ret ow now with hp1
  by_cases he : p1.err = true
  · rw [if_pos he] at h
    exact absurd h (by simp [he])
  · rw [if_neg he] at h ⊢
    cases hov : (if (!ch.isEmpty || List.isEmpty pm) = true
        then mvAddOne ((dget pm "version").getD (MetaVal.int 1))
        else some ((dget pm "version").getD (MetaVal.int 1))) with
    | none =>
        simp only [hov] at h
        simp at h
    | some vv =>
        simp only [hov] at h ⊢
        refine ⟨?_, vv, (dget pm "created_at").getD (MetaVal.str now), rfl⟩
        have hd := indexPhase_dirExists cn tn s pm ch docs inc ret ow now
        rw [← hp1] at hd
        exact hd

theorem reservedSave_isEmpty (cur : Dict) (cn tn : String) (r : Int)
    (ow vv : MetaVal) (now : String) (cr : MetaVal) :
    (reservedSave cur cn tn r ow vv now cr).isEmpty = false := rfl


/-! ## C3 — incremental no-op update -/

/-- Counterexample inputs for C3: the directory contains a file literally named
`version`, one of the reserved metadata keys. -/
def c3Dir : List (String × String) := [("version", "h1")]

def c3Docs : List Chunk := [⟨some "version", some "version", 0, false⟩]

def c3EmptyState : CollState := { dirExists := false, metaFile := none, index := [] }

def c3Out1 : BuildOut :=
  build_or_update_collection_from_dir "c" "public" c3EmptyState (some c3Dir) c3Docs
    true 30 MetaVal.null "100"

def c3Out2 : BuildOut :=
  build_or_update_collection_from_dir "c" "public" c3Out1.state (some c3Dir) c3Docs
    true 30 MetaVal.null "200"

/-- C3 counterexample: after building once from a directory containing a file
whose relative path is the reserved key `version`, re-running with the same
directory contents and `incremental = True` embeds one chunk again (not zero)
and bumps the persisted version from 2 to 3 — the reserved field overwrote the
stored fingerprint, so the file is always classified as changed. -/
theorem c3_noop_counterexample :
    c3Out2.embeds = 1 ∧
    metaVersion c3Out1.state = some (MetaVal.int 2) ∧
    metaVersion c3Out2.state = some (MetaVal.int 3) := by
  decide

/-- C3 (amended): for a collection built once from a directory none of whose
file paths collides with a reserved metadata key, calling
`build_or_update_collection_from_dir` again with the same directory contents
and `incremental = True` makes zero embedding calls, appends nothing to the
index, raises no error, and leaves the persisted version unchanged. -/
theorem c3_incremental_noop (cn tn : String) (s0 : CollState) (fs : List (String × String))
    (docs1 docs2 : List Chunk) (inc1 : Bool) (ret1 ret2 : Int) (ow1 ow2 : MetaVal)
    (now1 now2 : String) (out1 out2 : BuildOut)
    (hnd : (fs.map Prod.fst).Nodup)
    (hres : ∀ p ∈ fs.map Prod.fst, p ∉ reservedKeys)
    (h1 : out1 = build_or_update_collection_from_dir cn tn s0 (some fs) docs1 inc1
      ret1 ow1 now1)
    (herr : out1.err = false)
    (h2 : out2 = build_or_update_collection_from_dir cn tn out1.state (some fs)
      docs2 true ret2 ow2 now2) :
    out2.embeds = 0 ∧ out2.err = false ∧
    out2.state.index = out1.state.index ∧
    metaVersion out2.state = metaVersion out1.state := by
  subst h2
  subst h1
  obtain ⟨hdir, vv, cr, hmeta⟩ := build_success_shape cn tn s0 (some fs) docs1 inc1
    ret1 ow1 now1 herr
  simp only [compute_dir_checksums] at hmeta
  have hchanged : changedFiles (reservedSave (currentMetaDict fs) cn tn ret1 ow1 vv
      now1 cr) fs = [] := by
    unfold changedFiles
    have hf : List.filter (fun pc => decide (dget (reservedSave (currentMetaDict fs)
        cn tn ret1 ow1 vv now1 cr) pc.1 ≠ some (MetaVal.str pc.2))) fs = [] := by
      rw [List.filter_eq_nil_iff]
      intro pc hpc
      have hnr : pc.1 ∉ reservedKeys := hres pc.1 (List.mem_map.mpr ⟨pc, hpc, rfl⟩)
      have hv : dget (reservedSave (currentMetaDict fs) cn tn ret1 ow1 vv now1 cr)
          pc.1 = some (MetaVal.str pc.2) := by
        rw [dget_reservedSave_not_reserved _ _ _ _ _ _ _ _ _ hnr]
        exact dget_currentMetaDict_mem fs pc.1 pc.2 hnd (by simpa using hpc)
      simp [hv]
    rw [hf]
    rfl
  set s1 := (build_or_update_collection_from_dir cn tn s0 (some fs) docs1 inc1 ret1
    ow1 now1).state with hs1
  simp [build_or_update_collection_from_dir, indexPhase, compute_dir_checksums,
    _load_meta, hmeta, hchanged, hdir, load_collection, reservedSave_isEmpty,
    dget_reservedSave_version, metaVersion]

/-- Witness inputs for `c3_incremental_noop`: an ordinary single-file
directory. -/
def c3wDir : List (String × String) := [("a.txt", "h1")]

def c3wDocs : List Chunk := [⟨some "a.txt", some "a.txt", 0, false⟩]

def c3wOut1 : BuildOut :=
  build_or_update_collection_from_dir "c" "public" c3EmptyState (some c3wDir)
    c3wDocs true 30 MetaVal.null "100"

def c3wOut2 : BuildOut :=
  build_or_update_collection_from_dir "c" "public" c3wOut1.state (some c3wDir)
    c3wDocs true 30 MetaVal.null "200"

/-- Witness for `c3_incremental_noop` at a concrete input. -/
theorem c3_incremental_noop_witness :
    c3wOut2.embeds = 0 ∧ c3wOut2.err = false ∧
    c3wOut2.state.index = c3wOut1.state.index ∧
    metaVersion c3wOut2.state = metaVersion c3wOut1.state :=
  c3_incremental_noop "c" "public" c3EmptyState c3wDir c3wDocs c3wDocs true 30 30
    MetaVal.null MetaVal.null "100" "200" c3wOut1 c3wOut2 (by decide) (by decide)
    rfl (by decide) rfl

/-! ## C4 — tenant-scoped delete -/

/-- Store for the C4 failing input: tenants `alice` and `public` each own a
collection named `docs`. -/
def c4Store : List PTenant :=
  [⟨"alice", [⟨"docs", none, false⟩]⟩, ⟨"public", [⟨"docs", none, false⟩]⟩]

/-- C4: evaluating the code at the failing input.  `delete_collection` never
receives a tenant (`get_collection_path` is called with its default
`"public"`), and the API route drops the authenticated tenant, so a delete
invoked for tenant `alice` reports success, leaves `alice/docs` in place, and
destroys `public/docs` — another tenant's collection of the same name. -/
theorem c4_delete_wrong_tenant :
    (delete_collection_api c4Store "docs" "alice").2 = true ∧
    collExists (delete_collection_api c4Store "docs" "alice").1 "alice" "docs" = true ∧
    collExists (delete_collection_api c4Store "docs" "alice").1 "public" "docs" = false := by
  decide

/-! ## Purge sweep lemmas -/

theorem sweepCells_append (now : Int) (tn : String) (xs ys : List PColl) :
    sweepCells now tn (xs ++ ys) =
      ((sweepCells now tn xs).1 ++ (sweepCells now tn ys).1,
       (sweepCells now tn xs).2 ++ (sweepCells now tn ys).2) := by
  induction xs with
  | nil => simp [sweepCells]
  | cons c rest ih => simp [sweepCells, ih]

theorem purge_append (now : Int) (xs ys : List PTenant) :
    purge_expired_collections now (xs ++ ys) =
      ((purge_expired_collections now xs).1 ++ (purge_expired_collections now ys).1,
       (purge_expired_collections now xs).2 ++ (purge_expired_collections now ys).2) := by
  induction xs with
  | nil => simp [purge_expired_collections]
  | cons t rest ih => simp [purge_expired_collections, ih]

theorem shouldDelete_eval (now : Int) (c : PColl) (m : Dict) (r tc : Int) (ts : String)
    (hm : c.metaFile = some (MetaFile.ok m))
    (hr : dget m "retention_days" = some (MetaVal.int r))
    (hcr : dget m "created_at" = some (MetaVal.str ts))
    (hts : parseTs ts = some tc) :
    shouldDelete now c = decide ((now - tc).fdiv 86400 > r) := by
  have hne : ts ≠ "" := by
    intro h
    rw [h, (by decide : parseTs "" = none)] at hts
    cases hts
  simp [shouldDelete, _load_meta, hm, hr, hcr, hts, mvTruthy, hne]

theorem shouldDelete_skip (now : Int) (c : PColl)
    (h : c.metaFile = none ∨ c.metaFile = some MetaFile.corrupt ∨
      (∃ m, c.metaFile = some (MetaFile.ok m) ∧ dget m "created_at" = none)) :
    shouldDelete now c = false := by
  rcases h with h | h | ⟨m, hm, hcr⟩ <;> simp [shouldDelete, _load_meta, *, dget]

theorem perCell_expired (now : Int) (tn : String) (c : PColl)
    (h : shouldDelete now c = true) (hrm : c.rmFails = false) :
    perCell now tn c = ([], [tn ++ "/" ++ c.name]) := by
  simp [perCell, h, hrm]

theorem perCell_kept (now : Int) (tn : String) (c : PColl)
    (h : shouldDelete now c = false) :
    perCell now tn c = ([c], []) := by
  simp [perCell, h]

theorem perCell_rmFails (now : Int) (tn : String) (c : PColl)
    (h : shouldDelete now c = true) (hrm : c.rmFails = true) :
    perCell now tn c = ([c], []) := by
  simp [perCell, h, hrm]


/-! ## C5 — purge correctness -/

/-- C5: for every time `now` and every position of a collection in the store:
a collection with `retention_days = 30` whose parseable `created_at` is
31 days before `now` (and whose subtree deletion succeeds) is removed by
`purge_expired_collections now` and its `tenant/name` identity appears in the
returned list; one whose `created_at` is 29 days before `now` is left in
place and unlisted; and one whose metadata is missing, corrupt, or lacks a
`created_at` field is never purged.  All other collections are swept
independently of `c`. -/
theorem c5_purge_correctness (now : Int) (pre post : List PTenant) (tname : String)
    (cpre cpost : List PColl) (c : PColl) :
    ((∃ m ts tc, c.metaFile = some (MetaFile.ok m) ∧
        dget m "retention_days" = some (MetaVal.int 30) ∧
        dget m "created_at" = some (MetaVal.str ts) ∧ parseTs ts = some tc ∧
        now - tc = 31 * 86400 ∧ c.rmFails = false) →
      purge_expired_collections now (pre ++ ⟨tname, cpre ++ c :: cpost⟩ :: post) =
        ((purge_expired_collections now pre).1 ++
            ⟨tname, (sweepCells now tname cpre).1 ++ (sweepCells now tname cpost).1⟩ ::
            (purge_expired_collections now post).1,
         (purge_expired_collections now pre).2 ++
            ((sweepCells now tname cpre).2 ++ (tname ++ "/" ++ c.name) ::
              (sweepCells now tname cpost).2) ++
            (purge_expired_collections now post).2)) ∧
    ((∃ m ts tc, c.metaFile = some (MetaFile.ok m) ∧
        dget m "retention_days" = some (MetaVal.int 30) ∧
        dget m "created_at" = some (MetaVal.str ts) ∧ parseTs ts = some tc ∧
        now - tc = 29 * 86400) →
      purge_expired_collections now (pre ++ ⟨tname, cpre ++ c :: cpost⟩ :: post) =
        ((purge_expired_collections now pre).1 ++
            ⟨tname, (sweepCells now tname cpre).1 ++ c ::
              (sweepCells now tname cpost).1⟩ ::
            (purge_expired_collections now post).1,
         (purge_expired_collections now pre).2 ++
            ((sweepCells now tname cpre).2 ++ (sweepCells now tname cpost).2) ++
            (purge_expired_collections now post).2)) ∧
    ((c.metaFile = none ∨ c.metaFile = some MetaFile.corrupt ∨
        (∃ m, c.metaFile = some (MetaFile.ok m) ∧ dget m "created_at" = none)) →
      purge_expired_collections now (pre ++ ⟨tname, cpre ++ c :: cpost⟩ :: post) =
        ((purge_expired_collections now pre).1 ++
            ⟨tname, (sweepCells now tname cpre).1 ++ c ::
              (sweepCells now tname cpost).1⟩ ::
            (purge_expired_collections now post).1,
         (purge_expired_collections now pre).2 ++
            ((sweepCells now tname cpre).2 ++ (sweepCells now tname cpost).2) ++
            (purge_expired_collections now post).2)) := by
  refine ⟨?_, ?_, ?_⟩
  · rintro ⟨m, ts, tc, hm, hr, hcr, hts, hage, hrm⟩
    have hsd : shouldDelete now c = true := by
      rw [shouldDelete_eval now c m 30 tc ts hm hr hcr hts, hage]
      decide
    have hcell := perCell_expired now tname c hsd hrm
    simp [purge_append, purge_expired_collections, sweepCells_append, sweepCells, hcell]
  · rintro ⟨m, ts, tc, hm, hr, hcr, hts, hage⟩
    have hsd : shouldDelete now c = false := by
      rw [shouldDelete_eval now c m 30 tc ts hm hr hcr hts, hage]
      decide
    have hcell := perCell_kept now tname c hsd
    simp [purge_append, purge_expired_collections, sweepCells_append, sweepCells, hcell]
  · intro h
    have hcell := perCell_kept now tname c (shouldDelete_skip now c h)
    simp [purge_append, purge_expired_collections, sweepCells_append, sweepCells, hcell]

/-- Metadata of the expired collection for the C5 witness: created at time 0,
purged at `now = 31 * 86400` seconds. -/
def c5ExpiredCell : PColl :=
  ⟨"old", some (MetaFile.ok
    [("retention_days", MetaVal.int 30), ("created_at", MetaVal.str "0")]), false⟩

/-- A collection 29 days old at `now = 31 * 86400`. -/
def c5FreshCell : PColl :=
  ⟨"new", some (MetaFile.ok
    [("retention_days", MetaVal.int 30), ("created_at", MetaVal.str "172800")]), false⟩

def c5CorruptCell : PColl := ⟨"bad", some MetaFile.corrupt, false⟩

/-- Witness for `c5_purge_correctness` at concrete inputs. -/
theorem c5_purge_correctness_witness :
    purge_expired_collections 2678400 [⟨"t1", [c5ExpiredCell]⟩] =
      ([⟨"t1", []⟩], ["t1/old"]) ∧
    purge_expired_collections 2678400 [⟨"t1", [c5FreshCell]⟩] =
      ([⟨"t1", [c5FreshCell]⟩], []) ∧
    purge_expired_collections 2678400 [⟨"t1", [c5CorruptCell]⟩] =
      ([⟨"t1", [c5CorruptCell]⟩], []) := by
  refine ⟨?_, ?_, ?_⟩
  · have h := (c5_purge_correctness 2678400 [] [] "t1" [] [] c5ExpiredCell).1
      ⟨[("retention_days", MetaVal.int 30), ("created_at", MetaVal.str "0")],
        "0", 0, rfl, by decide, by decide, by decide, by decide, rfl⟩
    simpa [purge_expired_collections, sweepCells] using h
  · have h := (c5_purge_correctness 2678400 [] [] "t1" [] [] c5FreshCell).2.1
      ⟨[("retention_days", MetaVal.int 30), ("created_at", MetaVal.str "172800")],
        "172800", 172800, rfl, by decide, by decide, by decide, by decide⟩
    simpa [purge_expired_collections, sweepCells] using h
  · have h := (c5_purge_correctness 2678400 [] [] "t1" [] [] c5CorruptCell).2.2
      (Or.inr (Or.inl rfl))
    simpa [purge_expired_collections, sweepCells] using h

/-! ## C8 — purge sweep error isolation -/

/-- C8: a collection whose subtree deletion raises (its `rmtree` fails) while
it is due for deletion is skipped — kept in place and absent from the returned
list — and every other collection, before and after it and in other tenants,
is swept exactly as it would have been: the failure never aborts the sweep. -/
theorem c8_purge_failure_isolated (now : Int) (pre post : List PTenant)
    (tname : String) (cpre cpost : List PColl) (c : PColl)
    (hsd : shouldDelete now c = true) (hrm : c.rmFails = true) :
    purge_expired_collections now (pre ++ ⟨tname, cpre ++ c :: cpost⟩ :: post) =
      ((purge_expired_collections now pre).1 ++
          ⟨tname, (sweepCells now tname cpre).1 ++ c ::
            (sweepCells now tname cpost).1⟩ ::
          (purge_expired_collections now post).1,
       (purge_expired_collections now pre).2 ++
          ((sweepCells now tname cpre).2 ++ (sweepCells now tname cpost).2) ++
          (purge_expired_collections now post).2) := by
  have hcell := perCell_rmFails now tname c hsd hrm
  simp [purge_append, purge_expired_collections, sweepCells_append, sweepCells, hcell]

/-- The C8 witness store: an expired-but-undeletable collection sits between
two expired deletable ones; the sweep still removes both neighbours. -/
def c8FailCell : PColl :=
  ⟨"locked", some (MetaFile.ok
    [("retention_days", MetaVal.int 30), ("created_at", MetaVal.str "0")]), true⟩

def c8OtherCell : PColl :=
  ⟨"other", some (MetaFile.ok
    [("retention_days", MetaVal.int 30), ("created_at", MetaVal.str "0")]), false⟩

def c8Cell2 : PColl :=
  ⟨"second", some (MetaFile.ok
    [("retention_days", MetaVal.int 30), ("created_at", MetaVal.str "0")]), false⟩

/-- Witness for `c8_purge_failure_isolated` at a concrete input. -/
theorem c8_purge_failure_isolated_witness :
    purge_expired_collections 2678400
      [⟨"t1", [c8OtherCell, c8FailCell, c8Cell2]⟩] =
      ([⟨"t1", [c8FailCell]⟩], ["t1/other", "t1/second"]) := by
  have h := c8_purge_failure_isolated 2678400 [] [] "t1" [c8OtherCell] [c8Cell2]
    c8FailCell (by decide) rfl
  simpa [purge_expired_collections, sweepCells, perCell,
    (by decide : shouldDelete 2678400 c8OtherCell = true),
    (by decide : shouldDelete 2678400 c8Cell2 = true),
    (by decide : shouldDelete 2678400 c8FailCell = true),
    (by decide : c8OtherCell.rmFails = false),
    (by decide : c8Cell2.rmFails = false),
    (by decide : c8FailCell.rmFails = true),
    (by decide : c8OtherCell.name = "other"),
    (by decide : c8Cell2.name = "second"),
    (by decide : "t1" ++ "/" ++ "other" = "t1/other"),
    (by decide : "t1" ++ "/" ++ "second" = "t1/second")] using h

/-! ## C6 — corrupt metadata resilience -/

theorem any_filter_false (l : List Chunk) (f g : Chunk → Bool)
    (h : l.any f = false) : (l.filter g).any f = false := by
  simp only [List.any_eq_false] at h ⊢
  intro x hx
  exact h x (List.mem_of_mem_filter hx)

theorem changedFiles_nil (fs : List (String × String)) :
    changedFiles [] fs = fs.map Prod.fst := by
  simp [changedFiles, dget]

/-- State for the C6 counterexample: an existing collection directory holding
one indexed chunk and a corrupt `.meta.json`. -/
def c6State : CollState :=
  { dirExists := true, metaFile := some MetaFile.corrupt,
    index := [⟨some "a.txt", some "a.txt", 0, false⟩] }

/-- C6 counterexample: with corrupt metadata but an existing collection
directory, an incremental `build_or_update_collection_from_dir` does NOT take
the full-rebuild path: the previously indexed chunk survives alongside the
re-appended one, whereas a full rebuild would leave only the newly supplied
chunk set. -/
theorem c6_full_rebuild_counterexample :
    (build_or_update_collection_from_dir "c" "public" c6State
      (some [("a.txt", "h1")]) [⟨some "a.txt", some "a.txt", 1, false⟩] true 30
      MetaVal.null "200").state.index =
      [⟨some "a.txt", some "a.txt", 0, false⟩,
       ⟨some "a.txt", some "a.txt", 1, false⟩] ∧
    ([⟨some "a.txt", some "a.txt", 0, false⟩,
      ⟨some "a.txt", some "a.txt", 1, false⟩] : List Chunk) ≠
      [⟨some "a.txt", some "a.txt", 1, false⟩] := by
  decide

/-- C6 (amended): `_load_meta` returns the empty record on an absent or
unparseable file without raising, and `build_or_update_collection_from_dir`
treats a corrupt record identically to an absent one (identical output given
embeddable chunks) and never crashes; however, with `incremental = True` on an
existing directory it takes the incremental path with every current file
classified as changed — all supplied chunks whose source is a current file are
appended to the surviving index (version reset to 2) — rather than the
full-rebuild path. -/
theorem c6_corrupt_meta_like_absent (cn tn : String) (s : CollState)
    (dir : Option (List (String × String))) (docs : List Chunk) (inc : Bool)
    (ret : Int) (ow : MetaVal) (now : String) :
    (_load_meta (some MetaFile.corrupt) = [] ∧ _load_meta none = []) ∧
    (docs.any (·.embedFails) = false →
      build_or_update_collection_from_dir cn tn
        { s with metaFile := some MetaFile.corrupt } dir docs inc ret ow now =
      build_or_update_collection_from_dir cn tn
        { s with metaFile := none } dir docs inc ret ow now) ∧
    (s.dirExists = true → s.metaFile = some MetaFile.corrupt →
      docs.any (·.embedFails) = false →
      (build_or_update_collection_from_dir cn tn s dir docs true ret ow now).err
        = false ∧
      (build_or_update_collection_from_dir cn tn s dir docs true ret ow
        now).state.index =
        s.index ++ docs.filter (fun d => match d.src with
          | some p => decide (p ∈ (compute_dir_checksums dir).map Prod.fst)
          | none => false) ∧
      metaVersion (build_or_update_collection_from_dir cn tn s dir docs true ret
        ow now).state = some (MetaVal.int 2)) := by
  refine ⟨⟨rfl, rfl⟩, ?_, ?_⟩
  · intro hemb
    cases inc with
    | false =>
        simp [build_or_update_collection_from_dir, indexPhase, _load_meta,
          create_collection, hemb]
    | true =>
        by_cases hd : s.dirExists = true
        · simp only [build_or_update_collection_from_dir, indexPhase, _load_meta,
            load_collection, hd, if_true, Bool.not_true, Bool.or_self, if_false]
          by_cases hch : (changedFiles [] (compute_dir_checksums dir)).isEmpty = true
          · simp [hch, dget, mvAddOne, mvAddOneInt]
          · have hfa := any_filter_false docs (·.embedFails)
              (fun d => match d.src with
                | some p => decide (p ∈ changedFiles [] (compute_dir_checksums dir))
                | none => false) hemb
            by_cases hda : (docs.filter (fun d => match d.src with
                | some p => decide (p ∈ changedFiles [] (compute_dir_checksums dir))
                | none => false)).isEmpty = true
            · simp [hch, hda, dget, mvAddOne, mvAddOneInt]
            · simp [hch, hda, hfa, dget, mvAddOne, mvAddOneInt]
        · simp [build_or_update_collection_from_dir, indexPhase, _load_meta, hd,
            create_collection, hemb]
  · intro hd hmf hemb
    have hfa := any_filter_false docs (·.embedFails)
      (fun d => match d.src with
        | some p => decide (p ∈ changedFiles [] (compute_dir_checksums dir))
        | none => false) hemb
    simp only [build_or_update_collection_from_dir, indexPhase, _load_meta, hmf,
      load_collection, hd, if_true, Bool.not_true, Bool.or_self, if_false,
      changedFiles_nil] at hfa ⊢
    by_cases hch : ((compute_dir_checksums dir).map Prod.fst).isEmpty = true
    · have hnil : (compute_dir_checksums dir).map Prod.fst = [] := by simpa using hch
      simp [hch, hnil, dget, mvAddOne, mvAddOneInt, metaVersion, _load_meta,
        dget_reservedSave_version]
      intro a ha
      cases a.src <;> rfl
    · by_cases hda : (docs.filter (fun d => match d.src with
          | some p => decide (p ∈ (compute_dir_checksums dir).map Prod.fst)
          | none => false)).isEmpty = true
      · have hnil : docs.filter (fun d => match d.src with
            | some p => decide (p ∈ (compute_dir_checksums dir).map Prod.fst)
            | none => false) = [] := by simpa using hda
        simp [hch, hda, hnil, dget, mvAddOne, mvAddOneInt, metaVersion, _load_meta,
          dget_reservedSave_version]
      · simp [hch, hda, hfa, dget, mvAddOne, mvAddOneInt, metaVersion, _load_meta,
          dget_reservedSave_version]

/-- Witness for `c6_corrupt_meta_like_absent` at a concrete input. -/
theorem c6_corrupt_meta_like_absent_witness :
    build_or_update_collection_from_dir "c" "public"
      { c6State with metaFile := some MetaFile.corrupt } (some [("a.txt", "h1")])
      [⟨some "a.txt", some "a.txt", 1, false⟩] true 30 MetaVal.null "200" =
    build_or_update_collection_from_dir "c" "public"
      { c6State with metaFile := none } (some [("a.txt", "h1")])
      [⟨some "a.txt", some "a.txt", 1, false⟩] true 30 MetaVal.null "200" ∧
    (build_or_update_collection_from_dir "c" "public" c6State
      (some [("a.txt", "h1")]) [⟨some "a.txt", some "a.txt", 1, false⟩] true 30
      MetaVal.null "200").err = false ∧
    metaVersion (build_or_update_collection_from_dir "c" "public" c6State
      (some [("a.txt", "h1")]) [⟨some "a.txt", some "a.txt", 1, false⟩] true 30
      MetaVal.null "200").state = some (MetaVal.int 2) := by
  have h := c6_corrupt_meta_like_absent "c" "public" c6State
    (some [("a.txt", "h1")]) [⟨some "a.txt", some "a.txt", 1, false⟩] true 30
    MetaVal.null "200"
  exact ⟨h.2.1 (by decide), (h.2.2 rfl rfl (by decide)).1,
    (h.2.2 rfl rfl (by decide)).2.2⟩

/-! ## C7 — missing document directory on a mutation path -/

/-- State for the C7 counterexample: an existing collection at version 2 with
a stored fingerprint for `a.txt`. -/
def c7State : CollState :=
  { dirExists := true,
    metaFile := some (MetaFile.ok
      [("version", MetaVal.int 2), ("a.txt", MetaVal.str "h1"),
       ("created_at", MetaVal.str "100")]),
    index := [⟨some "a.txt", some "a.txt", 0, false⟩] }

/-- C7 counterexample: an incremental `build_or_update_collection_from_dir`
whose document directory does not exist raises no error at all — `rglob` on a
missing directory yields nothing, so the checksum map is empty and the call
silently proceeds, even erasing the stored fingerprint of `a.txt` from the
persisted record.  The claim that the mutation fails with an explicit error is
false. -/
theorem c7_missing_dir_counterexample :
    (build_or_update_collection_from_dir "c" "public" c7State none
      [⟨some "a.txt", some "a.txt", 1, false⟩] true 30 MetaVal.null "200").err
      = false ∧
    dget (_load_meta (build_or_update_collection_from_dir "c" "public" c7State
      none [⟨some "a.txt", some "a.txt", 1, false⟩] true 30 MetaVal.null
      "200").state.metaFile) "a.txt" = none := by
  decide

/-- C7 (amended): an incremental `build_or_update_collection_from_dir` whose
document directory does not exist silently succeeds: no error, zero embedding
calls, index unchanged, version unchanged, and the persisted record retains
only the reserved fields — every stored file fingerprint is wiped.  Read
paths do signal absence as a non-error result: `load_collection` returns
`none` and `get_collection_stats` returns the empty record when the
collection directory does not exist. -/
theorem c7_missing_dir_silent (cn tn : String) (s s2 : CollState) (m : Dict) (docs : List Chunk)
    (ret : Int) (ow : MetaVal) (now : String)
    (hd : s.dirExists = true) (hm : s.metaFile = some (MetaFile.ok m))
    (hmne : m ≠ []) :
    (build_or_update_collection_from_dir cn tn s none docs true ret ow now).err
      = false ∧
    (build_or_update_collection_from_dir cn tn s none docs true ret ow
      now).embeds = 0 ∧
    (build_or_update_collection_from_dir cn tn s none docs true ret ow
      now).state.index = s.index ∧
    metaVersion (build_or_update_collection_from_dir cn tn s none docs true ret
      ow now).state = some ((dget m "version").getD (MetaVal.int 1)) ∧
    (∀ p, p ∉ reservedKeys →
      dget (_load_meta (build_or_update_collection_from_dir cn tn s none docs
        true ret ow now).state.metaFile) p = none) ∧
    (s2.dirExists = false →
      load_collection s2 = none ∧ get_collection_stats cn s2 = none) := by
  have hie : m.isEmpty = false := by
    cases m with
    | nil => exact absurd rfl hmne
    | cons a b => rfl
  have hload : ∀ p, p ∉ reservedKeys →
      dget (reservedSave (currentMetaDict []) cn tn ret ow
        ((dget m "version").getD (MetaVal.int 1)) now
        ((dget m "created_at").getD (MetaVal.str now))) p = none := by
    intro p hp
    rw [dget_reservedSave_not_reserved _ _ _ _ _ _ _ _ _ hp]
    rfl
  refine ⟨?_, ?_, ?_, ?_, ?_, ?_⟩
  · simp [build_or_update_collection_from_dir, indexPhase, compute_dir_checksums,
      _load_meta, hm, hd, changedFiles, load_collection, hie]
  · simp [build_or_update_collection_from_dir, indexPhase, compute_dir_checksums,
      _load_meta, hm, hd, changedFiles, load_collection, hie]
  · simp [build_or_update_collection_from_dir, indexPhase, compute_dir_checksums,
      _load_meta, hm, hd, changedFiles, load_collection, hie]
  · simp [build_or_update_collection_from_dir, indexPhase, compute_dir_checksums,
      _load_meta, hm, hd, changedFiles, load_collection, hie, metaVersion,
      dget_reservedSave_version]
  · intro p hp
    simp [build_or_update_collection_from_dir, indexPhase, compute_dir_checksums,
      _load_meta, hm, hd, changedFiles, load_collection, hie]
    exact hload p hp
  · intro h2
    constructor
    · simp [load_collection, h2]
    · simp [get_collection_stats, load_collection, h2]

/-- Witness for `c7_missing_dir_silent` at a concrete input. -/
theorem c7_missing_dir_silent_witness :
    (build_or_update_collection_from_dir "c" "public" c7State none
      [⟨some "a.txt", some "a.txt", 1, false⟩] true 30 MetaVal.null "200").err
      = false ∧
    (build_or_update_collection_from_dir "c" "public" c7State none
      [⟨some "a.txt", some "a.txt", 1, false⟩] true 30 MetaVal.null
      "200").embeds = 0 ∧
    metaVersion (build_or_update_collection_from_dir "c" "public" c7State none
      [⟨some "a.txt", some "a.txt", 1, false⟩] true 30 MetaVal.null
      "200").state = some (MetaVal.int 2) ∧
    load_collection { c7State with dirExists := false } = none := by
  have h := c7_missing_dir_silent "c" "public" c7State
    { c7State with dirExists := false }
    [("version", MetaVal.int 2), ("a.txt", MetaVal.str "h1"),
     ("created_at", MetaVal.str "100")]
    [⟨some "a.txt", some "a.txt", 1, false⟩] 30 MetaVal.null "200" rfl rfl
    (by decide)
  exact ⟨h.1, h.2.1, h.2.2.2.1, (h.2.2.2.2.2 rfl).1⟩

/-! ## C9 — metadata persisted only after the index operation succeeds -/

theorem indexPhase_err_metaFile (cn tn : String) (s : CollState) (pm : Dict)
    (ch : List String) (docs : List Chunk) (inc : Bool) (ret : Int) (ow : MetaVal)
    (now : String)
    (h : (indexPhase cn tn s pm ch docs inc ret ow now).err = true) :
    (indexPhase cn tn s pm ch docs inc ret ow now).state.metaFile = s.metaFile ∨
    (indexPhase cn tn s pm ch docs inc ret ow now).state.metaFile = none := by
  by_cases hc : (!inc || !s.dirExists) = true
  · simp only [indexPhase, hc, if_true] at h ⊢
    cases hov : (if pm.isEmpty = true then some 1
        else mvAddOneInt ((dget pm "version").getD (MetaVal.int 1))) with
    | none => simp [hov]
    | some v =>
        simp only [hov] at h ⊢
        by_cases hemb : (docs.any fun x => x.embedFails) = true
        · simp [create_collection, hemb]
        · simp [create_collection, hemb] at h
  · obtain ⟨hinc, hdir⟩ : inc = true ∧ s.dirExists = true := by simpa using hc
    simp only [indexPhase, hinc, hdir, load_collection, Bool.not_true, Bool.or_self,
      if_false, if_true, create_collection] at h ⊢
    by_cases hch : (!ch.isEmpty) = true
    · simp only [hch, if_true] at h ⊢
      by_cases hda : (!(docs.filter (fun d => match d.src with
          | some p => decide (p ∈ ch)
          | none => false)).isEmpty) = true
      · simp only [hda, if_true] at h ⊢
        by_cases hemb : ((docs.filter (fun d => match d.src with
            | some p => decide (p ∈ ch)
            | none => false)).any fun x => x.embedFails) = true
        · simp [hemb]
        · simp [hemb] at h
      · simp only [hda, if_false] at h
        simp at h
    · simp only [hch, if_false] at h
      simp at h

theorem indexPhase_success_metaFile_of (cn tn : String) (s : CollState) (pm : Dict)
    (ch : List String) (docs : List Chunk) (inc : Bool) (ret : Int) (ow : MetaVal)
    (now : String)
    (hpmne : pm.isEmpty = false)
    (hpv : mvAddOneInt ((dget pm "version").getD (MetaVal.int 1)) = none)
    (h : (indexPhase cn tn s pm ch docs inc ret ow now).err = false) :
    (indexPhase cn tn s pm ch docs inc ret ow now).state.metaFile = s.metaFile := by
  by_cases hc : (!inc || !s.dirExists) = true
  · simp only [indexPhase, hc, if_true, hpmne, hpv] at h
    simp at h
  · obtain ⟨hinc, hdir⟩ : inc = true ∧ s.dirExists = true := by simpa using hc
    simp only [indexPhase, hinc, hdir, load_collection, Bool.not_true, Bool.or_self,
      if_false, if_true, create_collection] at h ⊢
    by_cases hch : (!ch.isEmpty) = true
    · simp only [hch, if_true] at h ⊢
      by_cases hda : (!(docs.filter (fun d => match d.src with
          | some p => decide (p ∈ ch)
          | none => false)).isEmpty) = true
      · simp only [hda, if_true] at h ⊢
        by_cases hemb : ((docs.filter (fun d => match d.src with
            | some p => decide (p ∈ ch)
            | none => false)).any fun x => x.embedFails) = true
        · simp [hemb] at h
        · simp [hemb]
      · simp [hda]
    · simp [hch]


/-- C9: in `create_collection` an embedding failure propagates before
`_save_meta` runs, so no metadata record is written at all; and whenever
`build_or_update_collection_from_dir` raises (embedding failure during rebuild
or append, or a type error computing the bumped version), the persisted
metadata is either the caller's untouched prior record or absent — never a
record claiming the new version (the save step runs strictly after the index
phase has succeeded). -/
theorem c9_meta_only_after_success (cn tn : String) (s : CollState)
    (dir : Option (List (String × String))) (docs : List Chunk) (inc : Bool)
    (ret : Int) (ow : MetaVal) (ver : Int) (now : String) :
    (docs.any (·.embedFails) = true →
      (create_collection cn tn docs ret ow ver now s).err = true ∧
      (create_collection cn tn docs ret ow ver now s).state.metaFile = none) ∧
    ((build_or_update_collection_from_dir cn tn s dir docs inc ret ow now).err
        = true →
      (build_or_update_collection_from_dir cn tn s dir docs inc ret ow
        now).state.metaFile = s.metaFile ∨
      (build_or_update_collection_from_dir cn tn s dir docs inc ret ow
        now).state.metaFile = none) := by
  constructor
  · intro hemb
    simp [create_collection, hemb]
  · intro herr
    simp only [build_or_update_collection_from_dir] at herr ⊢
    set pm := (if inc = true then _load_meta s.metaFile else []) with hpm
    set ch := changedFiles pm (compute_dir_checksums dir) with hch
    set p1 := indexPhase cn tn s pm ch docs inc ret ow now with hp1
    by_cases he : p1.err = true
    · rw [if_pos he] at herr ⊢
      have hm := indexPhase_err_metaFile cn tn s pm ch docs inc ret ow now (hp1 ▸ he)
      rw [← hp1] at hm
      exact hm
    · rw [if_neg he] at herr ⊢
      cases hov : (if (!ch.isEmpty || List.isEmpty pm) = true
          then mvAddOne ((dget pm "version").getD (MetaVal.int 1))
          else some ((dget pm "version").getD (MetaVal.int 1))) with
      | none =>
          simp only [hov] at herr ⊢
          have hsplit : (!ch.isEmpty || List.isEmpty pm) = true ∧
              mvAddOne ((dget pm "version").getD (MetaVal.int 1)) = none := by
            by_cases hcnd : (!ch.isEmpty || List.isEmpty pm) = true
            · rw [if_pos hcnd] at hov
              exact ⟨hcnd, hov⟩
            · rw [if_neg hcnd] at hov
              cases hov
          have hpmne : pm.isEmpty = false := by
            by_cases hp : pm.isEmpty = true
            · exfalso
              have hnil : pm = [] := by simpa using hp
              rw [hnil] at hsplit
              simp [dget, mvAddOne, mvAddOneInt] at hsplit
            · simpa using hp
          have hpv : mvAddOneInt ((dget pm "version").getD (MetaVal.int 1))
              = none := by
            have h2 := hsplit.2
            simp only [mvAddOne, Option.map_eq_none'] at h2
            exact h2
          have hm := indexPhase_success_metaFile_of cn tn s pm ch docs inc ret ow
            now hpmne hpv (by simpa using he)
          rw [← hp1] at hm
          exact Or.inl hm
      | some vv =>
          simp only [hov] at herr
          exact absurd herr he

/-- C9 witness inputs: a chunk whose embedding fails, over an existing
collection at version 1 whose file `a.txt` changed. -/
def c9FailDoc : Chunk := ⟨some "a.txt", some "a.txt", 1, true⟩

def c9State : CollState :=
  { dirExists := true,
    metaFile := some (MetaFile.ok
      [("version", MetaVal.int 1), ("a.txt", MetaVal.str "h1"),
       ("created_at", MetaVal.str "100")]),
    index := [⟨some "a.txt", some "a.txt", 0, false⟩] }

/-- Witness for `c9_meta_only_after_success` at a concrete input. -/
theorem c9_meta_only_after_success_witness :
    (create_collection "c" "public" [c9FailDoc] 30 MetaVal.null 1 "200"
      c9State).err = true ∧
    (create_collection "c" "public" [c9FailDoc] 30 MetaVal.null 1 "200"
      c9State).state.metaFile = none ∧
    ((build_or_update_collection_from_dir "c" "public" c9State
        (some [("a.txt", "h2")]) [c9FailDoc] true 30 MetaVal.null
        "200").state.metaFile = c9State.metaFile ∨
      (build_or_update_collection_from_dir "c" "public" c9State
        (some [("a.txt", "h2")]) [c9FailDoc] true 30 MetaVal.null
        "200").state.metaFile = none) := by
  have h := c9_meta_only_after_success "c" "public" c9State (some [("a.txt", "h2")])
    [c9FailDoc] true 30 MetaVal.null 1 "200"
  exact ⟨(h.1 (by decide)).1, (h.1 (by decide)).2, h.2 (by decide)⟩

/-! ## C10 — reserved metadata keys shadow file fingerprints -/

theorem dget_reservedSave_reserved (cur : Dict) (cn tn : String) (r : Int)
    (ow vv : MetaVal) (now : String) (cr : MetaVal) (k : String)
    (hk : k ∈ reservedKeys) :
    dget (reservedSave cur cn tn r ow vv now cr) k =
    dget (reservedSave [] cn tn r ow vv now cr) k := by
  simp only [reservedKeys, List.mem_cons, List.not_mem_nil, or_false] at hk
  rcases hk with rfl | rfl | rfl | rfl | rfl | rfl | rfl <;>
    simp [reservedSave, dinsert, dget]


/-- C10: when the directory contains a regular file whose relative path `k` is
one of the reserved metadata keys, every successful build persists at `k` the
reserved field's value — exactly what would be stored had the file not
existed, so the file's fingerprint is never persisted; consequently, on a
subsequent incremental call whose stored value at `k` differs from the file's
digest, the file is classified as changed and its supplied chunks are appended
to the index again. -/
theorem c10_reserved_key_shadows_fingerprint (cn tn k cks : String) (s1 : CollState) (m1 : Dict)
    (fs : List (String × String)) (docs2 : List Chunk) (ret1 ret2 : Int)
    (ow1 ow2 : MetaVal) (now1 now2 : String) (v1 : Int) (out2 : BuildOut)
    (hk : k ∈ reservedKeys) (hmem : (k, cks) ∈ fs) :
    (∀ (s0 : CollState) (docs1 : List Chunk) (inc1 : Bool),
      (build_or_update_collection_from_dir cn tn s0 (some fs) docs1 inc1 ret1 ow1
        now1).err = false →
      ∃ vv cr, (build_or_update_collection_from_dir cn tn s0 (some fs) docs1 inc1
          ret1 ow1 now1).state.metaFile =
          some (MetaFile.ok (reservedSave (currentMetaDict fs) cn tn ret1 ow1 vv
            now1 cr)) ∧
        dget (reservedSave (currentMetaDict fs) cn tn ret1 ow1 vv now1 cr) k =
        dget (reservedSave [] cn tn ret1 ow1 vv now1 cr) k) ∧
    (s1.dirExists = true → s1.metaFile = some (MetaFile.ok m1) →
      dget m1 k ≠ some (MetaVal.str cks) →
      dget m1 "version" = some (MetaVal.int v1) →
      docs2.any (·.embedFails) = false →
      out2 = build_or_update_collection_from_dir cn tn s1 (some fs) docs2 true
        ret2 ow2 now2 →
      k ∈ changedFiles m1 fs ∧
      out2.err = false ∧
      out2.state.index = s1.index ++ docs2.filter (fun d => match d.src with
        | some p => decide (p ∈ changedFiles m1 fs)
        | none => false) ∧
      metaVersion out2.state = some (MetaVal.int (v1 + 1)) ∧
      (∀ d ∈ docs2, d.src = some k → d ∈ out2.state.index)) := by
  constructor
  · intro s0 docs1 inc1 herr
    obtain ⟨-, vv, cr, hmeta⟩ := build_success_shape cn tn s0 (some fs) docs1 inc1
      ret1 ow1 now1 herr
    simp only [compute_dir_checksums] at hmeta
    exact ⟨vv, cr, hmeta, dget_reservedSave_reserved _ cn tn ret1 ow1 vv now1 cr k hk⟩
  · intro hd hm hkv hver hemb hout
    have hkmem : k ∈ changedFiles m1 fs := by
      unfold changedFiles
      exact List.mem_map.mpr ⟨(k, cks), List.mem_filter.mpr ⟨hmem, by simp [hkv]⟩, rfl⟩
    have hchne : (changedFiles m1 fs).isEmpty = false := by
      cases hcf : changedFiles m1 fs with
      | nil => rw [hcf] at hkmem; cases hkmem
      | cons a b => rfl
    have hfa := any_filter_false docs2 (·.embedFails)
      (fun d => match d.src with
        | some p => decide (p ∈ changedFiles m1 fs)
        | none => false) hemb
    have hres : build_or_update_collection_from_dir cn tn s1 (some fs) docs2 true
        ret2 ow2 now2 =
        { state :=
            { dirExists := true,
              metaFile := some (MetaFile.ok (reservedSave (currentMetaDict fs) cn
                tn ret2 ow2 (MetaVal.int (v1 + 1)) now2
                ((dget m1 "created_at").getD (MetaVal.str now2)))),
              index := s1.index ++ docs2.filter (fun d => match d.src with
                | some p => decide (p ∈ changedFiles m1 fs)
                | none => false) },
          embeds := (docs2.filter (fun d => match d.src with
            | some p => decide (p ∈ changedFiles m1 fs)
            | none => false)).length,
          err := false } := by
      simp only [build_or_update_collection_from_dir, indexPhase,
        compute_dir_checksums, _load_meta, hm, hd, load_collection, if_true,
        Bool.not_true, Bool.or_self, if_false, hchne, hver, Bool.not_false,
        Bool.true_or, mvAddOne, mvAddOneInt, Option.getD_some, Option.map_some']
      by_cases hda : (docs2.filter (fun d => match d.src with
          | some p => decide (p ∈ changedFiles m1 fs)
          | none => false)).isEmpty = true
      · have hnil : docs2.filter (fun d => match d.src with
            | some p => decide (p ∈ changedFiles m1 fs)
            | none => false) = [] := by simpa using hda
        simp [hda, hnil, hd]
      · simp [hda, hfa, hd]
    subst hout
    rw [hres]
    refine ⟨hkmem, rfl, rfl, ?_, ?_⟩
    · simp [metaVersion, _load_meta, dget_reservedSave_version]
    · intro d hd2 hsrc
      refine List.mem_append_right _ (List.mem_filter.mpr ⟨hd2, ?_⟩)
      simp [hsrc, hkmem]

/-- C10 witness inputs: the directory holds a file literally named `version`;
the previously persisted record maps `version` to the integer version 3, not
to the file's digest. -/
def c10Meta : Dict :=
  [("version", MetaVal.int 3), ("a.txt", MetaVal.str "h1"),
   ("created_at", MetaVal.str "50")]

def c10State : CollState :=
  { dirExists := true, metaFile := some (MetaFile.ok c10Meta),
    index := [⟨some "a.txt", some "a.txt", 0, false⟩] }

def c10Dir : List (String × String) := [("version", "hv"), ("a.txt", "h1")]

def c10Docs : List Chunk :=
  [⟨some "version", some "version", 5, false⟩,
   ⟨some "a.txt", some "a.txt", 6, false⟩]

/-- Witness for `c10_reserved_key_shadows_fingerprint` at a concrete input. -/
theorem c10_reserved_key_shadows_fingerprint_witness :
    "version" ∈ changedFiles c10Meta c10Dir ∧
    (build_or_update_collection_from_dir "c" "public" c10State (some c10Dir)
      c10Docs true 30 MetaVal.null "200").err = false ∧
    metaVersion (build_or_update_collection_from_dir "c" "public" c10State
      (some c10Dir) c10Docs true 30 MetaVal.null "200").state =
      some (MetaVal.int 4) ∧
    (⟨some "version", some "version", 5, false⟩ : Chunk) ∈
      (build_or_update_collection_from_dir "c" "public" c10State (some c10Dir)
        c10Docs true 30 MetaVal.null "200").state.index := by
  have h := (c10_reserved_key_shadows_fingerprint "c" "public" "version" "hv"
    c10State c10Meta c10Dir c10Docs 30 30 MetaVal.null MetaVal.null "100" "200" 3
    (build_or_update_collection_from_dir "c" "public" c10State (some c10Dir)
      c10Docs true 30 MetaVal.null "200")
    (by decide) (by decide)).2 rfl rfl (by decide) rfl (by decide) rfl
  exact ⟨h.1, h.2.1, h.2.2.2.1,
    h.2.2.2.2 ⟨some "version", some "version", 5, false⟩ (by decide) rfl⟩
